import Mathlib

/-!
Verification of the deduposaur archive auditor (`src/dewailly.py`).

The repository is a small draft: `scanDirTree`, `doArchive` (metadata
loading), the `__main__` argument/precondition check exist in the code,
while the reconciliation engine (`verifyAndUpdate` / `triageNewFiles`)
is described by the design document but its loop body is not written.
Definitions below that come from the Python source say so; definitions
for code the repository does not contain are marked
`Modelled from the spec:`.
-/

/-- One file record, as built by `scanDirTree` (src/dewailly.py lines
125-132) and by `class Record` (lines 47-54): relative path, sha256 hex
digest, integer ctime/mtime, byte size.  The redundant `root_dir_path`
field of `class Record` is the scan root and plays no role in any
comparison, so it is not carried here. -/
structure Record where
  relative_path : String
  sha256 : String
  ctime : Int
  mtime : Int
  size : Nat
  deriving Repr, DecidableEq

/-- One directory entry as `os.walk` hands it to the per-file loop of
`scanDirTree` (lines 119-132), together with the answers the operating
system would give to the per-file tests the loop performs:
`is_link` is `os.path.islink`, `is_file` is `os.path.isfile` at check
time, and `readable` says whether the subsequent `open(filepath, "rb")`
succeeds (a file that vanishes or loses permission between the check
and the open has `readable = false`).  The remaining fields are the
fingerprint data the loop records when the open succeeds. -/
structure FsEntry where
  relative_path : String
  is_link : Bool
  is_file : Bool
  readable : Bool
  sha256 : String
  ctime : Int
  mtime : Int
  size : Nat
  deriving Repr, DecidableEq

/-- `scanDirTree` (src/dewailly.py lines 117-133).  The walk's entries
are processed in order.  A non-file entry (symlink, or `isfile` false —
including a file deleted after the walk listed it) is skipped with a
warning written to stderr and the loop continues.  Otherwise the file
is opened with no surrounding try/except: if the open fails the
exception propagates and the whole scan aborts, which the `.error`
branch records.  On success the entry's record is appended.  Returns
the record list and the warning lines. -/
def scanDirTree : List FsEntry → Except String (List Record × List String)
  | [] => Except.ok ([], [])
  | e :: rest =>
    if e.is_link || !e.is_file then
      match scanDirTree rest with
      | Except.ok (rs, ws) => Except.ok (rs, ("Skipping non-file " ++ e.relative_path) :: ws)
      | Except.error err => Except.error err
    else if !e.readable then
      Except.error ("IOError: " ++ e.relative_path)
    else
      match scanDirTree rest with
      | Except.ok (rs, ws) =>
          Except.ok (⟨e.relative_path, e.sha256, e.ctime, e.mtime, e.size⟩ :: rs, ws)
      | Except.error err => Except.error err

/-- The record `scanDirTree` builds for an entry it keeps. -/
def FsEntry.toRecord (e : FsEntry) : Record :=
  ⟨e.relative_path, e.sha256, e.ctime, e.mtime, e.size⟩

/-- The on-disk state of a metadata file: absent, or present with some
text content. -/
inductive MetadataFile where
  | absent : MetadataFile
  | present : String → MetadataFile
  deriving Repr, DecidableEq

/-- The fatal error `doArchive` lets propagate when `json.load` fails. -/
inductive LoadError where
  | corruptMetadata : LoadError
  deriving Repr, DecidableEq

/-- Metadata loading from `doArchive` (src/dewailly.py lines 138-145):
if the metadata file exists its content is parsed by `json.load`, whose
parse failure raises and propagates (modelled as
`LoadError.corruptMetadata`); if the file does not exist the program
prints that it is creating the file and proceeds with the empty
snapshot `{}`.  The JSON parser itself is external input, so it is a
parameter `parse`; `parse content = none` means `json.load` raises on
that content. -/
def loadMetadata (parse : String → Option (List Record)) :
    MetadataFile → Except LoadError (List Record)
  | MetadataFile.absent => Except.ok []
  | MetadataFile.present content =>
    match parse content with
    | some metadata => Except.ok metadata
    | none => Except.error LoadError.corruptMetadata

/-- Length of the longest common prefix of two component lists, as
`os.path.commonprefix([start_list, path_list])` computes it inside
`os.path.relpath` (element-wise comparison of the two lists). -/
def commonPrefixLen : List String → List String → Nat
  | a :: as, b :: bs => if a = b then commonPrefixLen as bs + 1 else 0
  | _, _ => 0

/-- `os.path.relpath(path, start)` on absolute paths, with a path
represented by its list of components (the non-empty pieces of
`os.path.abspath(p).split(sep)`; components contain no separator).
The result is again a component list: `len(start)-i` copies of `".."`
followed by the tail of `path`, where `i` is the common-prefix length.
The empty list stands for the string result `"."`. -/
def relpathComponents (path start : List String) : List String :=
  let i := commonPrefixLen start path
  List.replicate (start.length - i) ".." ++ path.drop i

/-- Python's `s.startswith("..")`: the first two characters of `s` are
both `'.'`. -/
def textStartsWithPardir (s : String) : Bool :=
  match s.data with
  | '.' :: '.' :: _ => true
  | _ => false

/-- `os.path.relpath(path, start).startswith("..")` (src/dewailly.py
lines 159-160).  Components are non-empty and contain no separator, so
the joined string starts with `".."` exactly when its first component
does; the empty component list is the string `"."`, which does not. -/
def relpathStartsWithPardir (path start : List String) : Bool :=
  match relpathComponents path start with
  | [] => false
  | c :: _ => textStartsWithPardir c

/-- Outcome of the `__main__` block: either the nested-directory
`ValueError` is raised before `doArchive` runs (so before any scan and
before any snapshot or ledger write), or the run proceeds into
`doArchive`/`doNew`. -/
inductive MainOutcome where
  | preconditionError : MainOutcome
  | proceed : MainOutcome
  deriving Repr, DecidableEq

/-- The `__main__` block's precondition check (src/dewailly.py lines
156-164): after `parseArgs` absolutized both paths, if a new-files
directory was given and either relative path between the two
directories fails to start with `".."`, a `ValueError` is raised; only
otherwise do `doArchive` (the first scan) and `doNew` run. -/
def runMain (archive_dir : List String) (new_files_dir : Option (List String)) : MainOutcome :=
  match new_files_dir with
  | some nf =>
    if !(relpathStartsWithPardir archive_dir nf) || !(relpathStartsWithPardir nf archive_dir) then
      MainOutcome.preconditionError
    else
      MainOutcome.proceed
  | none => MainOutcome.proceed

/-! ## The reconciliation engine

The engine below is the part of the repository that the draft never
finished: `doArchive`'s reconciliation loop (line 146) has no body and
`doNew` (lines 152-153) is a stub, so these definitions are built from
the design document's §4.3 algorithm rather than from Python code. -/

/-- First record with the given relative path (the path → record
lookup of §4.3 step 1). -/
def findByPath (rs : List Record) (p : String) : Option Record :=
  rs.find? (fun r => r.relative_path == p)

/-- Secondary metadata comparison of §4.3 step 2: size, ctime and
mtime all equal. -/
def sameMeta (r c : Record) : Bool :=
  r.size == c.size && r.ctime == c.ctime && r.mtime == c.mtime

/-- Insert a string into a list sorted ascending. -/
def insertString (p : String) : List String → List String
  | [] => [p]
  | q :: qs => if p < q then p :: q :: qs else q :: insertString p qs

/-- Sort strings ascending (insertion sort). -/
def sortStrings (ps : List String) : List String :=
  ps.foldr insertString []

/-- Insert a record into a list sorted ascending by relative path. -/
def insertRecord (r : Record) : List Record → List Record
  | [] => [r]
  | s :: ss =>
    if r.relative_path < s.relative_path then r :: s :: ss else s :: insertRecord r ss

/-- Sort records ascending by relative path (insertion sort). -/
def sortRecords (rs : List Record) : List Record :=
  rs.foldr insertRecord []

/-- Modelled from the spec: the per-hash step of §4.3 step 5 (absent
from the code: `doNew` is a stub).  For one content hash, the
tentatively deleted records and tentatively new records carrying that
hash are each sorted by ascending `relative_path` and paired
positionally; the overhang on either side stays deleted resp. new.
Returns (renamed pairs as (old path, new path), unmatched deleted
records, unmatched new records). -/
def matchRenamesForHash (h : String) (dels news : List Record) :
    List (String × String) × List Record × List Record :=
  let oldRs := sortRecords (dels.filter (fun r => r.sha256 == h))
  let newRs := sortRecords (news.filter (fun r => r.sha256 == h))
  ((oldRs.map Record.relative_path).zip (newRs.map Record.relative_path),
   oldRs.drop newRs.length, newRs.drop oldRs.length)

/-- Modelled from the spec: rename detection, §4.3 step 5 (absent from
the code).  Tentatively deleted and tentatively new records are grouped
by `content_hash`; each hash group is paired by
`matchRenamesForHash`.  The hash groups are visited in sorted order of
the deduplicated hash list so the result does not depend on scan
order. -/
def matchRenames (dels news : List Record) :
    List (String × String) × List Record × List Record :=
  let hs := sortStrings (((dels ++ news).map Record.sha256).dedup)
  (hs.flatMap (fun h => (matchRenamesForHash h dels news).1),
   hs.flatMap (fun h => (matchRenamesForHash h dels news).2.1),
   hs.flatMap (fun h => (matchRenamesForHash h dels news).2.2))

/-- The classified diff of §4.3: path lists for the same-path
classifications, old/new path pairs for renames, full records for the
new and deleted classifications, and the updated snapshot. -/
structure DiffResult where
  unchanged : List String
  metadataChanged : List String
  contentChanged : List String
  renamed : List (String × String)
  newRecords : List Record
  deletedRecords : List Record
  updated : List Record
  deriving Repr, DecidableEq

/-- Modelled from the spec: `verifyAndUpdate(reference_snapshot,
current_scan)`, §4.3 (absent from the code: `doArchive`'s loop body is
empty).  Steps 1-2: every current record whose path is also in the
reference is classified by hash then size/ctime/mtime.  Steps 3-4:
paths present on only one side are tentatively new resp. deleted.
Step 5: `matchRenames` turns hash-matched tentative pairs into
`renamed`.  Step 6: the updated snapshot is the current scan's
records. -/
def verifyAndUpdate (ref cur : List Record) : DiffResult :=
  let unchanged := (cur.filter (fun c =>
    match findByPath ref c.relative_path with
    | some r => r.sha256 == c.sha256 && sameMeta r c
    | none => false)).map Record.relative_path
  let metadataChanged := (cur.filter (fun c =>
    match findByPath ref c.relative_path with
    | some r => r.sha256 == c.sha256 && !(sameMeta r c)
    | none => false)).map Record.relative_path
  let contentChanged := (cur.filter (fun c =>
    match findByPath ref c.relative_path with
    | some r => !(r.sha256 == c.sha256)
    | none => false)).map Record.relative_path
  let tentativeNew := cur.filter (fun c => (findByPath ref c.relative_path).isNone)
  let tentativeDel := ref.filter (fun r => (findByPath cur r.relative_path).isNone)
  let m := matchRenames tentativeDel tentativeNew
  { unchanged := unchanged
    metadataChanged := metadataChanged
    contentChanged := contentChanged
    renamed := m.1
    newRecords := m.2.2
    deletedRecords := m.2.1
    updated := cur }

/-- Result of `triageNewFiles`: the staging diff, the replaced staging
snapshot, the deletion entries this run adds, and the ledger after the
run. -/
structure TriageResult where
  report : DiffResult
  duplicatesOfArchive : List String
  previouslyRejected : List String
  updatedStaging : List Record
  newDeletionEntries : List String
  updatedLedger : List String
  deriving Repr, DecidableEq

/-- Modelled from the spec: `triageNewFiles(archive_snapshot,
deletion_ledger, previous_staging_snapshot, current_staging_scan)`,
§4.3 (absent from the code: `doNew` is a stub).  Step 1 runs the same
diff as `verifyAndUpdate` between the previous staging snapshot and the
current staging scan; step 2 records one `new_deletion_entries` entry,
keyed by `content_hash`, for every record deleted from staging and not
matched as a rename; step 3 flags current staging records whose hash is
known to the archive snapshot resp. the deletion ledger; step 4
replaces the staging snapshot wholesale with the current scan.  The
ledger after the run is the old ledger with the new entries appended —
entries are only ever added. -/
def triageNewFiles (archive : List Record) (ledger : List String)
    (prevStaging curStaging : List Record) : TriageResult :=
  let d := verifyAndUpdate prevStaging curStaging
  let newDeletions := d.deletedRecords.map Record.sha256
  { report := d
    duplicatesOfArchive := (curStaging.filter (fun c =>
      (archive.map Record.sha256).contains c.sha256)).map Record.relative_path
    previouslyRejected := (curStaging.filter (fun c =>
      ledger.contains c.sha256)).map Record.relative_path
    updatedStaging := curStaging
    newDeletionEntries := newDeletions
    updatedLedger := ledger ++ newDeletions }

/-! ## Helper lemmas -/

theorem commonPrefixLen_self (l : List String) : commonPrefixLen l l = l.length := by
  induction l with
  | nil => rfl
  | cons a as ih => simp [commonPrefixLen, ih]

theorem commonPrefixLen_append_right (l d : List String) :
    commonPrefixLen l (l ++ d) = l.length := by
  induction l with
  | nil => cases d <;> rfl
  | cons a as ih => simp [commonPrefixLen, ih]

theorem commonPrefixLen_append_left (l d : List String) :
    commonPrefixLen (l ++ d) l = l.length := by
  induction l with
  | nil => cases d <;> rfl
  | cons a as ih => simp [commonPrefixLen, ih]

theorem relpathComponents_self (p : List String) : relpathComponents p p = [] := by
  simp [relpathComponents, commonPrefixLen_self]

/-- Relative path from a directory up into its ancestor: only `".."`
components. -/
theorem relpathComponents_up (a d : List String) :
    relpathComponents a (a ++ d) = List.replicate d.length ".." := by
  simp [relpathComponents, commonPrefixLen_append_left]

/-- Relative path from a directory down into a descendant: the extra
components themselves. -/
theorem relpathComponents_down (a d : List String) :
    relpathComponents (a ++ d) a = d := by
  simp [relpathComponents, commonPrefixLen_append_right, List.drop_left]

theorem mem_insertString (p x : String) (l : List String) :
    x ∈ insertString p l ↔ x = p ∨ x ∈ l := by
  induction l with
  | nil => simp [insertString]
  | cons q qs ih =>
    by_cases h : p < q
    · simp [insertString, h]
    · simp [insertString, h, ih]
      tauto

theorem mem_sortStrings (x : String) (l : List String) : x ∈ sortStrings l ↔ x ∈ l := by
  induction l with
  | nil => simp [sortStrings]
  | cons q qs ih =>
    show x ∈ insertString q (sortStrings qs) ↔ _
    rw [mem_insertString, ih]
    simp

theorem mem_insertRecord (p x : Record) (l : List Record) :
    x ∈ insertRecord p l ↔ x = p ∨ x ∈ l := by
  induction l with
  | nil => simp [insertRecord]
  | cons q qs ih =>
    by_cases h : p.relative_path < q.relative_path
    · simp [insertRecord, h]
    · simp [insertRecord, h, ih]
      tauto

theorem mem_sortRecords (x : Record) (l : List Record) : x ∈ sortRecords l ↔ x ∈ l := by
  induction l with
  | nil => simp [sortRecords]
  | cons q qs ih =>
    show x ∈ insertRecord q (sortRecords qs) ↔ _
    rw [mem_insertRecord, ih]
    simp

theorem insertString_perm (p : String) (l : List String) :
    List.Perm (insertString p l) (p :: l) := by
  induction l with
  | nil => rfl
  | cons q qs ih =>
    by_cases h : p < q
    · rw [insertString, if_pos h]
    · rw [insertString, if_neg h]
      exact (ih.cons q).trans (List.Perm.swap p q qs)

theorem sortStrings_perm (l : List String) : List.Perm (sortStrings l) l := by
  induction l with
  | nil => rfl
  | cons q qs ih => exact (insertString_perm q (sortStrings qs)).trans (ih.cons q)

theorem insertString_sorted (p : String) (l : List String)
    (hl : l.Sorted (fun a b => a ≤ b)) :
    (insertString p l).Sorted (fun a b => a ≤ b) := by
  induction l with
  | nil => simp [insertString]
  | cons q qs ih =>
    rw [List.sorted_cons] at hl
    by_cases h : p < q
    · rw [insertString, if_pos h, List.sorted_cons]
      refine ⟨fun b hb => ?_, List.sorted_cons.mpr hl⟩
      rcases List.mem_cons.mp hb with rfl | hb'
      · exact le_of_lt h
      · exact le_of_lt (lt_of_lt_of_le h (hl.1 b hb'))
    · rw [insertString, if_neg h, List.sorted_cons]
      refine ⟨fun b hb => ?_, ih hl.2⟩
      rcases (mem_insertString p b qs).mp hb with rfl | hb'
      · exact le_of_not_lt h
      · exact hl.1 b hb'

theorem sortStrings_sorted (l : List String) :
    (sortStrings l).Sorted (fun a b => a ≤ b) := by
  induction l with
  | nil => exact List.sorted_nil
  | cons q qs ih => exact insertString_sorted q (sortStrings qs) ih

/-- Sorting with `insertString` is a function of the multiset of
strings: permuted duplicate-free input sorts to the same list. -/
theorem sortStrings_eq_of_perm (l1 l2 : List String) (h : List.Perm l1 l2)
    (hnd : l2.Nodup) : sortStrings l1 = sortStrings l2 := by
  haveI : IsAntisymm String (fun a b : String => a < b) :=
    ⟨fun a b hab hba => absurd hba (lt_asymm hab)⟩
  have hnd1 : l1.Nodup := h.nodup_iff.mpr hnd
  have key : ∀ m : List String, m.Nodup →
      (sortStrings m).Sorted (fun a b : String => a < b) := by
    intro m hm
    have h2 : (sortStrings m).Nodup := (sortStrings_perm m).nodup_iff.mpr hm
    exact (List.Pairwise.and (sortStrings_sorted m) h2).imp
      (fun hab => lt_of_le_of_ne hab.1 hab.2)
  exact List.eq_of_perm_of_sorted
    (((sortStrings_perm l1).trans h).trans (sortStrings_perm l2).symm)
    (key l1 hnd1) (key l2 hnd)

theorem insertRecord_perm (p : Record) (l : List Record) :
    List.Perm (insertRecord p l) (p :: l) := by
  induction l with
  | nil => rfl
  | cons q qs ih =>
    by_cases h : p.relative_path < q.relative_path
    · rw [insertRecord, if_pos h]
    · rw [insertRecord, if_neg h]
      exact (ih.cons q).trans (List.Perm.swap p q qs)

theorem sortRecords_perm (l : List Record) : List.Perm (sortRecords l) l := by
  induction l with
  | nil => rfl
  | cons q qs ih => exact (insertRecord_perm q (sortRecords qs)).trans (ih.cons q)

theorem insertRecord_sorted (p : Record) (l : List Record)
    (hl : l.Sorted (fun a b : Record => a.relative_path ≤ b.relative_path)) :
    (insertRecord p l).Sorted (fun a b : Record => a.relative_path ≤ b.relative_path) := by
  induction l with
  | nil => simp [insertRecord]
  | cons q qs ih =>
    rw [List.sorted_cons] at hl
    by_cases h : p.relative_path < q.relative_path
    · rw [insertRecord, if_pos h, List.sorted_cons]
      refine ⟨fun b hb => ?_, List.sorted_cons.mpr hl⟩
      rcases List.mem_cons.mp hb with rfl | hb'
      · exact le_of_lt h
      · exact le_of_lt (lt_of_lt_of_le h (hl.1 b hb'))
    · rw [insertRecord, if_neg h, List.sorted_cons]
      refine ⟨fun b hb => ?_, ih hl.2⟩
      rcases (mem_insertRecord p b qs).mp hb with rfl | hb'
      · exact le_of_not_lt h
      · exact hl.1 b hb'

theorem sortRecords_sorted (l : List Record) :
    (sortRecords l).Sorted (fun a b : Record => a.relative_path ≤ b.relative_path) := by
  induction l with
  | nil => exact List.sorted_nil
  | cons q qs ih => exact insertRecord_sorted q (sortRecords qs) ih

/-- Sorting with `insertRecord` is a function of the multiset of
records when relative paths are unique: permuted input sorts to the
same list. -/
theorem sortRecords_eq_of_perm (l1 l2 : List Record) (h : List.Perm l1 l2)
    (hnd : (l2.map Record.relative_path).Nodup) : sortRecords l1 = sortRecords l2 := by
  haveI : IsAntisymm Record (fun a b : Record => a.relative_path < b.relative_path) :=
    ⟨fun a b hab hba => absurd hba (lt_asymm hab)⟩
  have key : ∀ m : List Record, (m.map Record.relative_path).Nodup →
      (sortRecords m).Sorted (fun a b : Record => a.relative_path < b.relative_path) := by
    intro m hm
    have h2 : (sortRecords m).Pairwise
        (fun a b : Record => a.relative_path ≠ b.relative_path) := by
      have h3 : ((sortRecords m).map Record.relative_path).Nodup :=
        ((sortRecords_perm m).map Record.relative_path).nodup_iff.mpr hm
      rwa [List.Nodup, List.pairwise_map] at h3
    exact (List.Pairwise.and (sortRecords_sorted m) h2).imp
      (fun hab => lt_of_le_of_ne hab.1 hab.2)
  have hnd1 : (l1.map Record.relative_path).Nodup :=
    ((h.map Record.relative_path).nodup_iff).mpr hnd
  exact List.eq_of_perm_of_sorted
    (((sortRecords_perm l1).trans h).trans (sortRecords_perm l2).symm)
    (key l1 hnd1) (key l2 hnd)

theorem findByPath_eq_none (rs : List Record) (p : String)
    (h : ∀ r ∈ rs, r.relative_path ≠ p) : findByPath rs p = none := by
  rw [findByPath, List.find?_eq_none]
  intro r hr
  simp [h r hr]

theorem findByPath_self (l : List Record) (hnd : (l.map Record.relative_path).Nodup)
    (c : Record) (hc : c ∈ l) : findByPath l c.relative_path = some c := by
  induction l with
  | nil => cases hc
  | cons x xs ih =>
    rw [List.map_cons, List.nodup_cons] at hnd
    rcases List.mem_cons.mp hc with rfl | hc'
    · simp [findByPath, List.find?]
    · have hx : (x.relative_path == c.relative_path) = false := by
        simp only [beq_eq_false_iff_ne, ne_eq]
        intro h
        exact hnd.1 (h ▸ List.mem_map_of_mem Record.relative_path hc')
      rw [findByPath]
      simp only [List.find?, hx]
      exact ih hnd.2 hc'

/-- With unique paths the path lookup does not depend on the order of
the records. -/
theorem findByPath_perm (l1 l2 : List Record) (h : List.Perm l1 l2)
    (hnd : (l2.map Record.relative_path).Nodup) (p : String) :
    findByPath l1 p = findByPath l2 p := by
  cases hf : findByPath l2 p with
  | none =>
    apply findByPath_eq_none
    intro r hr
    rw [findByPath, List.find?_eq_none] at hf
    have h1 := hf r (h.mem_iff.mp hr)
    simpa using h1
  | some r =>
    rw [findByPath] at hf
    have hpr := List.find?_some hf
    rw [beq_iff_eq] at hpr
    have hr1 : r ∈ l1 := h.mem_iff.mpr (List.mem_of_find?_eq_some hf)
    rw [← hpr]
    exact findByPath_self l1 ((h.map Record.relative_path).nodup_iff.mpr hnd) r hr1

/-- Rename matching is a function of the two record multisets: it does
not depend on the order in which the tentatively deleted and
tentatively new records arrive. -/
theorem matchRenames_perm (dels news dels' news' : List Record)
    (hd : List.Perm dels' dels) (hn : List.Perm news' news)
    (hndd : (dels.map Record.relative_path).Nodup)
    (hndn : (news.map Record.relative_path).Nodup) :
    matchRenames dels' news' = matchRenames dels news := by
  have hhs : sortStrings (((dels' ++ news').map Record.sha256).dedup) =
      sortStrings (((dels ++ news).map Record.sha256).dedup) :=
    sortStrings_eq_of_perm _ _ (((hd.append hn).map Record.sha256).dedup)
      (List.nodup_dedup _)
  have hfh : ∀ h, matchRenamesForHash h dels' news' = matchRenamesForHash h dels news := by
    intro h
    have h1 : sortRecords (dels'.filter (fun r => r.sha256 == h)) =
        sortRecords (dels.filter (fun r => r.sha256 == h)) :=
      sortRecords_eq_of_perm _ _ (hd.filter _)
        (hndd.sublist ((List.filter_sublist dels).map Record.relative_path))
    have h2 : sortRecords (news'.filter (fun r => r.sha256 == h)) =
        sortRecords (news.filter (fun r => r.sha256 == h)) :=
      sortRecords_eq_of_perm _ _ (hn.filter _)
        (hndn.sublist ((List.filter_sublist news).map Record.relative_path))
    rw [matchRenamesForHash, matchRenamesForHash, h1, h2]
  simp only [matchRenames, hhs, hfh]

/-- The updated snapshot of `verifyAndUpdate` is the current scan
(§4.3 step 6). -/
theorem verifyAndUpdate_updated (ref cur : List Record) :
    (verifyAndUpdate ref cur).updated = cur := rfl

/-- Diffing a snapshot against itself classifies every record
`unchanged` and nothing else. -/
theorem verifyAndUpdate_self (cur : List Record)
    (hnd : (cur.map Record.relative_path).Nodup) :
    verifyAndUpdate cur cur =
      { unchanged := cur.map Record.relative_path
        metadataChanged := []
        contentChanged := []
        renamed := []
        newRecords := []
        deletedRecords := []
        updated := cur } := by
  have hfind : ∀ c ∈ cur, findByPath cur c.relative_path = some c :=
    fun c hc => findByPath_self cur hnd c hc
  have h1 : cur.filter (fun c =>
      match findByPath cur c.relative_path with
      | some r => r.sha256 == c.sha256 && sameMeta r c
      | none => false) = cur := by
    rw [List.filter_eq_self]
    intro c hc
    rw [hfind c hc]
    simp [sameMeta]
  have h2 : cur.filter (fun c =>
      match findByPath cur c.relative_path with
      | some r => r.sha256 == c.sha256 && !(sameMeta r c)
      | none => false) = [] := by
    rw [List.filter_eq_nil_iff]
    intro c hc
    rw [hfind c hc]
    simp [sameMeta]
  have h3 : cur.filter (fun c =>
      match findByPath cur c.relative_path with
      | some r => !(r.sha256 == c.sha256)
      | none => false) = [] := by
    rw [List.filter_eq_nil_iff]
    intro c hc
    rw [hfind c hc]
    simp
  have h4 : cur.filter (fun c => (findByPath cur c.relative_path).isNone) = [] := by
    rw [List.filter_eq_nil_iff]
    intro c hc
    rw [hfind c hc]
    simp
  simp only [verifyAndUpdate, h1, h2, h3, h4]
  rfl

/-! ## C2: idempotence of verifyAndUpdate -/

/-- C2: with no filesystem change between runs the second run diffs the
first run's updated snapshot (which is the scan itself) against the
same scan, so every file is classified `unchanged`, no other
classification occurs, and the updated snapshots of the two runs are
identical, record for record. -/
theorem verifyAndUpdate_idempotent (ref cur : List Record)
    (hnd : (cur.map Record.relative_path).Nodup) :
    (verifyAndUpdate (verifyAndUpdate ref cur).updated cur).unchanged =
        cur.map Record.relative_path ∧
    (verifyAndUpdate (verifyAndUpdate ref cur).updated cur).metadataChanged = [] ∧
    (verifyAndUpdate (verifyAndUpdate ref cur).updated cur).contentChanged = [] ∧
    (verifyAndUpdate (verifyAndUpdate ref cur).updated cur).renamed = [] ∧
    (verifyAndUpdate (verifyAndUpdate ref cur).updated cur).newRecords = [] ∧
    (verifyAndUpdate (verifyAndUpdate ref cur).updated cur).deletedRecords = [] ∧
    (verifyAndUpdate (verifyAndUpdate ref cur).updated cur).updated =
        (verifyAndUpdate ref cur).updated := by
  rw [verifyAndUpdate_updated, verifyAndUpdate_self cur hnd]
  simp

/-- Witness for `verifyAndUpdate_idempotent` on a two-file scan. -/
theorem verifyAndUpdate_idempotent_witness :
    (([⟨"a.txt", "h1", 1, 2, 3⟩, ⟨"b.txt", "h2", 4, 5, 6⟩] : List Record).map
        Record.relative_path).Nodup ∧
    ((verifyAndUpdate
        (verifyAndUpdate [⟨"a.txt", "h0", 0, 0, 0⟩]
          [⟨"a.txt", "h1", 1, 2, 3⟩, ⟨"b.txt", "h2", 4, 5, 6⟩]).updated
        [⟨"a.txt", "h1", 1, 2, 3⟩, ⟨"b.txt", "h2", 4, 5, 6⟩]).unchanged =
      ([⟨"a.txt", "h1", 1, 2, 3⟩, ⟨"b.txt", "h2", 4, 5, 6⟩] : List Record).map
        Record.relative_path ∧
     (verifyAndUpdate
        (verifyAndUpdate [⟨"a.txt", "h0", 0, 0, 0⟩]
          [⟨"a.txt", "h1", 1, 2, 3⟩, ⟨"b.txt", "h2", 4, 5, 6⟩]).updated
        [⟨"a.txt", "h1", 1, 2, 3⟩, ⟨"b.txt", "h2", 4, 5, 6⟩]).metadataChanged = [] ∧
     (verifyAndUpdate
        (verifyAndUpdate [⟨"a.txt", "h0", 0, 0, 0⟩]
          [⟨"a.txt", "h1", 1, 2, 3⟩, ⟨"b.txt", "h2", 4, 5, 6⟩]).updated
        [⟨"a.txt", "h1", 1, 2, 3⟩, ⟨"b.txt", "h2", 4, 5, 6⟩]).contentChanged = [] ∧
     (verifyAndUpdate
        (verifyAndUpdate [⟨"a.txt", "h0", 0, 0, 0⟩]
          [⟨"a.txt", "h1", 1, 2, 3⟩, ⟨"b.txt", "h2", 4, 5, 6⟩]).updated
        [⟨"a.txt", "h1", 1, 2, 3⟩, ⟨"b.txt", "h2", 4, 5, 6⟩]).renamed = [] ∧
     (verifyAndUpdate
        (verifyAndUpdate [⟨"a.txt", "h0", 0, 0, 0⟩]
          [⟨"a.txt", "h1", 1, 2, 3⟩, ⟨"b.txt", "h2", 4, 5, 6⟩]).updated
        [⟨"a.txt", "h1", 1, 2, 3⟩, ⟨"b.txt", "h2", 4, 5, 6⟩]).newRecords = [] ∧
     (verifyAndUpdate
        (verifyAndUpdate [⟨"a.txt", "h0", 0, 0, 0⟩]
          [⟨"a.txt", "h1", 1, 2, 3⟩, ⟨"b.txt", "h2", 4, 5, 6⟩]).updated
        [⟨"a.txt", "h1", 1, 2, 3⟩, ⟨"b.txt", "h2", 4, 5, 6⟩]).deletedRecords = [] ∧
     (verifyAndUpdate
        (verifyAndUpdate [⟨"a.txt", "h0", 0, 0, 0⟩]
          [⟨"a.txt", "h1", 1, 2, 3⟩, ⟨"b.txt", "h2", 4, 5, 6⟩]).updated
        [⟨"a.txt", "h1", 1, 2, 3⟩, ⟨"b.txt", "h2", 4, 5, 6⟩]).updated =
       (verifyAndUpdate [⟨"a.txt", "h0", 0, 0, 0⟩]
          [⟨"a.txt", "h1", 1, 2, 3⟩, ⟨"b.txt", "h2", 4, 5, 6⟩]).updated) :=
  ⟨by decide,
   verifyAndUpdate_idempotent [⟨"a.txt", "h0", 0, 0, 0⟩]
     [⟨"a.txt", "h1", 1, 2, 3⟩, ⟨"b.txt", "h2", 4, 5, 6⟩] (by decide)⟩

/-! ## C8: content change versus metadata change -/

/-- Members of a list with pairwise distinct relative paths are
determined by their path. -/
theorem path_inj (l : List Record) (hnd : (l.map Record.relative_path).Nodup)
    (x y : Record) (hx : x ∈ l) (hy : y ∈ l)
    (h : x.relative_path = y.relative_path) : x = y :=
  List.inj_on_of_nodup_map hnd hx hy h

/-- C8: for a path present in both snapshots (the reference lookup
finds `r` for the current record `c`): if the hashes agree but some of
size/ctime/mtime differ the path is classified `metadata_changed` and
in neither of `unchanged`/`content_changed`; if the hashes differ the
path is classified `content_changed` and the updated snapshot carries
the current scan's record — new hash, size and timestamps — for that
path. -/
theorem verifyAndUpdate_same_path_classes (ref cur : List Record) (c r : Record)
    (hc : c ∈ cur) (hnd : (cur.map Record.relative_path).Nodup)
    (hfind : findByPath ref c.relative_path = some r) :
    (r.sha256 = c.sha256 → sameMeta r c = false →
      c.relative_path ∈ (verifyAndUpdate ref cur).metadataChanged ∧
      c.relative_path ∉ (verifyAndUpdate ref cur).unchanged ∧
      c.relative_path ∉ (verifyAndUpdate ref cur).contentChanged) ∧
    (r.sha256 ≠ c.sha256 →
      c.relative_path ∈ (verifyAndUpdate ref cur).contentChanged ∧
      findByPath (verifyAndUpdate ref cur).updated c.relative_path = some c) := by
  constructor
  · intro hsha hmeta
    refine ⟨?_, ?_, ?_⟩
    · show c.relative_path ∈ (cur.filter _).map Record.relative_path
      exact List.mem_map_of_mem _ (List.mem_filter.mpr ⟨hc, by rw [hfind]; simp [hsha, hmeta]⟩)
    · show c.relative_path ∉ (cur.filter _).map Record.relative_path
      intro hmem
      rcases List.mem_map.mp hmem with ⟨x, hxf, hxp⟩
      rcases List.mem_filter.mp hxf with ⟨hxc, hxcond⟩
      have : x = c := path_inj cur hnd x c hxc hc hxp
      subst this
      rw [hfind] at hxcond
      simp [hsha, hmeta] at hxcond
    · show c.relative_path ∉ (cur.filter _).map Record.relative_path
      intro hmem
      rcases List.mem_map.mp hmem with ⟨x, hxf, hxp⟩
      rcases List.mem_filter.mp hxf with ⟨hxc, hxcond⟩
      have : x = c := path_inj cur hnd x c hxc hc hxp
      subst this
      rw [hfind] at hxcond
      simp [hsha] at hxcond
  · intro hsha
    refine ⟨?_, ?_⟩
    · show c.relative_path ∈ (cur.filter _).map Record.relative_path
      exact List.mem_map_of_mem _ (List.mem_filter.mpr ⟨hc, by rw [hfind]; simp [hsha]⟩)
    · rw [verifyAndUpdate_updated]
      exact findByPath_self cur hnd c hc

/-- Witness for `verifyAndUpdate_same_path_classes`: same path, same
hash, different mtime. -/
theorem verifyAndUpdate_same_path_classes_witness :
    ((⟨"a.txt", "h1", 1, 9, 3⟩ : Record) ∈
        ([⟨"a.txt", "h1", 1, 9, 3⟩] : List Record)) ∧
    (([⟨"a.txt", "h1", 1, 9, 3⟩] : List Record).map Record.relative_path).Nodup ∧
    findByPath [⟨"a.txt", "h1", 1, 2, 3⟩] (Record.relative_path ⟨"a.txt", "h1", 1, 9, 3⟩) =
      some ⟨"a.txt", "h1", 1, 2, 3⟩ ∧
    ((Record.sha256 ⟨"a.txt", "h1", 1, 2, 3⟩ = Record.sha256 (⟨"a.txt", "h1", 1, 9, 3⟩ : Record) →
      sameMeta ⟨"a.txt", "h1", 1, 2, 3⟩ ⟨"a.txt", "h1", 1, 9, 3⟩ = false →
      Record.relative_path (⟨"a.txt", "h1", 1, 9, 3⟩ : Record) ∈
        (verifyAndUpdate [⟨"a.txt", "h1", 1, 2, 3⟩] [⟨"a.txt", "h1", 1, 9, 3⟩]).metadataChanged ∧
      Record.relative_path (⟨"a.txt", "h1", 1, 9, 3⟩ : Record) ∉
        (verifyAndUpdate [⟨"a.txt", "h1", 1, 2, 3⟩] [⟨"a.txt", "h1", 1, 9, 3⟩]).unchanged ∧
      Record.relative_path (⟨"a.txt", "h1", 1, 9, 3⟩ : Record) ∉
        (verifyAndUpdate [⟨"a.txt", "h1", 1, 2, 3⟩] [⟨"a.txt", "h1", 1, 9, 3⟩]).contentChanged) ∧
     (Record.sha256 ⟨"a.txt", "h1", 1, 2, 3⟩ ≠ Record.sha256 (⟨"a.txt", "h1", 1, 9, 3⟩ : Record) →
      Record.relative_path (⟨"a.txt", "h1", 1, 9, 3⟩ : Record) ∈
        (verifyAndUpdate [⟨"a.txt", "h1", 1, 2, 3⟩] [⟨"a.txt", "h1", 1, 9, 3⟩]).contentChanged ∧
      findByPath (verifyAndUpdate [⟨"a.txt", "h1", 1, 2, 3⟩] [⟨"a.txt", "h1", 1, 9, 3⟩]).updated
          (Record.relative_path (⟨"a.txt", "h1", 1, 9, 3⟩ : Record)) =
        some ⟨"a.txt", "h1", 1, 9, 3⟩)) :=
  ⟨by decide, by decide, by decide,
   verifyAndUpdate_same_path_classes [⟨"a.txt", "h1", 1, 2, 3⟩] [⟨"a.txt", "h1", 1, 9, 3⟩]
     ⟨"a.txt", "h1", 1, 9, 3⟩ ⟨"a.txt", "h1", 1, 2, 3⟩ (by decide) (by decide) (by decide)⟩

/-! ## C1: rename detection on a single pair -/

/-- C1: old snapshot `{a: h}` against new scan `{b: h}` with the same
content hash and different paths yields exactly one `renamed` entry
(a → b) and neither a `deleted` nor a `new` classification. -/
theorem verifyAndUpdate_rename_single (pa pb hsh : String) (ct mt : Int) (sz : Nat)
    (ct2 mt2 : Int) (sz2 : Nat) (hne : pa ≠ pb) :
    (verifyAndUpdate [⟨pa, hsh, ct, mt, sz⟩] [⟨pb, hsh, ct2, mt2, sz2⟩]).renamed =
        [(pa, pb)] ∧
    (verifyAndUpdate [⟨pa, hsh, ct, mt, sz⟩] [⟨pb, hsh, ct2, mt2, sz2⟩]).deletedRecords = [] ∧
    (verifyAndUpdate [⟨pa, hsh, ct, mt, sz⟩] [⟨pb, hsh, ct2, mt2, sz2⟩]).newRecords = [] := by
  have h1 : (pa == pb) = false := by simp [hne]
  have h2 : (pb == pa) = false := by simp [Ne.symm hne]
  simp [verifyAndUpdate, findByPath, List.find?, h1, h2, matchRenames, matchRenamesForHash,
    sortStrings, insertString, sortRecords, insertRecord,
    List.dedup_cons_of_mem, List.dedup_nil]

/-- Witness for `verifyAndUpdate_rename_single` at `a.txt` → `b.txt`. -/
theorem verifyAndUpdate_rename_single_witness :
    ("a.txt" ≠ "b.txt") ∧
    ((verifyAndUpdate [⟨"a.txt", "h1", 1, 2, 3⟩] [⟨"b.txt", "h1", 4, 5, 6⟩]).renamed =
        [("a.txt", "b.txt")] ∧
     (verifyAndUpdate [⟨"a.txt", "h1", 1, 2, 3⟩] [⟨"b.txt", "h1", 4, 5, 6⟩]).deletedRecords =
        [] ∧
     (verifyAndUpdate [⟨"a.txt", "h1", 1, 2, 3⟩] [⟨"b.txt", "h1", 4, 5, 6⟩]).newRecords = []) :=
  ⟨by decide,
   verifyAndUpdate_rename_single "a.txt" "b.txt" "h1" 1 2 3 4 5 6 (by decide)⟩

/-! ## C3: deterministic rename tie-break -/

/-- C3: two tentatively deleted records and two tentatively new
records sharing one hash are paired by ascending old path against
ascending new path — `a → c`, `b → d`; and in general the renamed
pairs, the unmatched deleted records and the unmatched new records
computed by `verifyAndUpdate` are unchanged under any reordering of
the reference records and of the scanned records, so the pairing is
independent of scan order (and, the diff being a pure function of its
input snapshots, identical across repeated runs on identical
input). -/
theorem verifyAndUpdate_rename_tiebreak :
    (∀ pa pb pc pd hsh : String, ∀ c1 m1 : Int, ∀ s1 : Nat, ∀ c2 m2 : Int, ∀ s2 : Nat,
      ∀ c3 m3 : Int, ∀ s3 : Nat, ∀ c4 m4 : Int, ∀ s4 : Nat,
      pa < pb → pc < pd → pc ≠ pa → pc ≠ pb → pd ≠ pa → pd ≠ pb →
      (verifyAndUpdate [⟨pa, hsh, c1, m1, s1⟩, ⟨pb, hsh, c2, m2, s2⟩]
          [⟨pc, hsh, c3, m3, s3⟩, ⟨pd, hsh, c4, m4, s4⟩]).renamed =
        [(pa, pc), (pb, pd)]) ∧
    (∀ ref cur ref2 cur2 : List Record, List.Perm ref2 ref → List.Perm cur2 cur →
      (ref.map Record.relative_path).Nodup → (cur.map Record.relative_path).Nodup →
      (verifyAndUpdate ref2 cur2).renamed = (verifyAndUpdate ref cur).renamed ∧
      (verifyAndUpdate ref2 cur2).deletedRecords =
        (verifyAndUpdate ref cur).deletedRecords ∧
      (verifyAndUpdate ref2 cur2).newRecords = (verifyAndUpdate ref cur).newRecords) := by
  constructor
  · intro pa pb pc pd hsh c1 m1 s1 c2 m2 s2 c3 m3 s3 c4 m4 s4 hab hcd hca hcb hda hdb
    have e1 : (pa == pc) = false := by simp [Ne.symm hca]
    have e2 : (pb == pc) = false := by simp [Ne.symm hcb]
    have e3 : (pa == pd) = false := by simp [Ne.symm hda]
    have e4 : (pb == pd) = false := by simp [Ne.symm hdb]
    have e5 : (pc == pa) = false := by simp [hca]
    have e6 : (pd == pa) = false := by simp [hda]
    have e7 : (pc == pb) = false := by simp [hcb]
    have e8 : (pd == pb) = false := by simp [hdb]
    simp [verifyAndUpdate, findByPath, List.find?, e1, e2, e3, e4, e5, e6, e7, e8,
      matchRenames, matchRenamesForHash, sortStrings, insertString, sortRecords,
      insertRecord, List.dedup_cons_of_mem, List.dedup_nil, hab, hcd]
  · intro ref cur ref2 cur2 href hcur hndR hndC
    have hfc : ∀ p, findByPath cur2 p = findByPath cur p :=
      fun p => findByPath_perm _ _ hcur hndC p
    have hfr : ∀ p, findByPath ref2 p = findByPath ref p :=
      fun p => findByPath_perm _ _ href hndR p
    have hdels : List.Perm
        (ref2.filter (fun r => (findByPath cur2 r.relative_path).isNone))
        (ref.filter (fun r => (findByPath cur r.relative_path).isNone)) := by
      have he : (fun r : Record => (findByPath cur2 r.relative_path).isNone) =
          (fun r : Record => (findByPath cur r.relative_path).isNone) :=
        funext (fun r => by rw [hfc])
      rw [he]
      exact href.filter _
    have hnews : List.Perm
        (cur2.filter (fun c => (findByPath ref2 c.relative_path).isNone))
        (cur.filter (fun c => (findByPath ref c.relative_path).isNone)) := by
      have he : (fun c : Record => (findByPath ref2 c.relative_path).isNone) =
          (fun c : Record => (findByPath ref c.relative_path).isNone) :=
        funext (fun c => by rw [hfr])
      rw [he]
      exact hcur.filter _
    have hmr := matchRenames_perm _ _ _ _ hdels hnews
      (hndR.sublist ((List.filter_sublist ref).map Record.relative_path))
      (hndC.sublist ((List.filter_sublist cur).map Record.relative_path))
    exact ⟨congrArg (fun t => t.1) hmr, congrArg (fun t => t.2.1) hmr,
      congrArg (fun t => t.2.2) hmr⟩

/-- Witness for `verifyAndUpdate_rename_tiebreak`:
`{a.txt, b.txt} → {c.txt, d.txt}` pairs ascending-to-ascending, also
when both inputs arrive reversed. -/
theorem verifyAndUpdate_rename_tiebreak_witness :
    ("a.txt" < "b.txt") ∧ ("c.txt" < "d.txt") ∧
    (verifyAndUpdate [⟨"a.txt", "h1", 0, 0, 0⟩, ⟨"b.txt", "h1", 1, 1, 1⟩]
        [⟨"c.txt", "h1", 2, 2, 2⟩, ⟨"d.txt", "h1", 3, 3, 3⟩]).renamed =
      [("a.txt", "c.txt"), ("b.txt", "d.txt")] ∧
    ((verifyAndUpdate [⟨"b.txt", "h1", 1, 1, 1⟩, ⟨"a.txt", "h1", 0, 0, 0⟩]
        [⟨"d.txt", "h1", 3, 3, 3⟩, ⟨"c.txt", "h1", 2, 2, 2⟩]).renamed =
      (verifyAndUpdate [⟨"a.txt", "h1", 0, 0, 0⟩, ⟨"b.txt", "h1", 1, 1, 1⟩]
        [⟨"c.txt", "h1", 2, 2, 2⟩, ⟨"d.txt", "h1", 3, 3, 3⟩]).renamed ∧
     (verifyAndUpdate [⟨"b.txt", "h1", 1, 1, 1⟩, ⟨"a.txt", "h1", 0, 0, 0⟩]
        [⟨"d.txt", "h1", 3, 3, 3⟩, ⟨"c.txt", "h1", 2, 2, 2⟩]).deletedRecords =
      (verifyAndUpdate [⟨"a.txt", "h1", 0, 0, 0⟩, ⟨"b.txt", "h1", 1, 1, 1⟩]
        [⟨"c.txt", "h1", 2, 2, 2⟩, ⟨"d.txt", "h1", 3, 3, 3⟩]).deletedRecords ∧
     (verifyAndUpdate [⟨"b.txt", "h1", 1, 1, 1⟩, ⟨"a.txt", "h1", 0, 0, 0⟩]
        [⟨"d.txt", "h1", 3, 3, 3⟩, ⟨"c.txt", "h1", 2, 2, 2⟩]).newRecords =
      (verifyAndUpdate [⟨"a.txt", "h1", 0, 0, 0⟩, ⟨"b.txt", "h1", 1, 1, 1⟩]
        [⟨"c.txt", "h1", 2, 2, 2⟩, ⟨"d.txt", "h1", 3, 3, 3⟩]).newRecords) :=
  ⟨String.lt_iff_toList_lt.mpr (by decide), String.lt_iff_toList_lt.mpr (by decide),
   verifyAndUpdate_rename_tiebreak.1 "a.txt" "b.txt" "c.txt" "d.txt" "h1"
     0 0 0 1 1 1 2 2 2 3 3 3
     (String.lt_iff_toList_lt.mpr (by decide)) (String.lt_iff_toList_lt.mpr (by decide))
     (by decide) (by decide) (by decide) (by decide),
   verifyAndUpdate_rename_tiebreak.2
     [⟨"a.txt", "h1", 0, 0, 0⟩, ⟨"b.txt", "h1", 1, 1, 1⟩]
     [⟨"c.txt", "h1", 2, 2, 2⟩, ⟨"d.txt", "h1", 3, 3, 3⟩]
     [⟨"b.txt", "h1", 1, 1, 1⟩, ⟨"a.txt", "h1", 0, 0, 0⟩]
     [⟨"d.txt", "h1", 3, 3, 3⟩, ⟨"c.txt", "h1", 2, 2, 2⟩]
     (List.Perm.swap _ _ _) (List.Perm.swap _ _ _) (by decide) (by decide)⟩

/-! ## C9: the deletion ledger only grows -/

/-- C9: a record present in the previous staging snapshot whose path
and hash are both gone from the current staging scan (so it cannot be
rename-matched) contributes its hash to `new_deletion_entries` and
hence to the updated ledger; and every hash already in the ledger is
still in the updated ledger — `triageNewFiles`, the only operation
touching the ledger, only ever appends, so an entry recorded in run N
is present after run N+1 and after every later run. -/
theorem triageNewFiles_ledger_monotone (archive : List Record) (ledger : List String)
    (prev cur : List Record) (r : Record) (hr : r ∈ prev)
    (hpath : ∀ c ∈ cur, c.relative_path ≠ r.relative_path)
    (hhash : ∀ c ∈ cur, c.sha256 ≠ r.sha256) :
    r.sha256 ∈ (triageNewFiles archive ledger prev cur).newDeletionEntries ∧
    r.sha256 ∈ (triageNewFiles archive ledger prev cur).updatedLedger ∧
    ∀ h ∈ ledger, h ∈ (triageNewFiles archive ledger prev cur).updatedLedger := by
  have hfind : findByPath cur r.relative_path = none :=
    findByPath_eq_none cur r.relative_path hpath
  have hrdels : r ∈ prev.filter (fun p => (findByPath cur p.relative_path).isNone) :=
    List.mem_filter.mpr ⟨hr, by rw [hfind]; rfl⟩
  have hdel : r ∈ (verifyAndUpdate prev cur).deletedRecords := by
    show r ∈ (sortStrings ((((prev.filter
        (fun p => (findByPath cur p.relative_path).isNone)) ++
          (cur.filter (fun c => (findByPath prev c.relative_path).isNone))).map
            Record.sha256).dedup)).flatMap
      (fun h => (matchRenamesForHash h
        (prev.filter (fun p => (findByPath cur p.relative_path).isNone))
        (cur.filter (fun c => (findByPath prev c.relative_path).isNone))).2.1)
    apply List.mem_flatMap.mpr
    refine ⟨r.sha256, ?_, ?_⟩
    · rw [mem_sortStrings, List.mem_dedup]
      exact List.mem_map_of_mem Record.sha256 (List.mem_append_left _ hrdels)
    · have hnews : (cur.filter
          (fun c => (findByPath prev c.relative_path).isNone)).filter
            (fun x => x.sha256 == r.sha256) = [] := by
        rw [List.filter_eq_nil_iff]
        intro x hx
        have hxc : x ∈ cur := List.mem_of_mem_filter hx
        simp [hhash x hxc]
      show r ∈ (sortRecords _).drop (sortRecords _).length
      rw [hnews]
      show r ∈ (sortRecords _).drop 0
      rw [List.drop_zero, mem_sortRecords]
      exact List.mem_filter.mpr ⟨hrdels, by simp⟩
  refine ⟨?_, ?_, ?_⟩
  · show r.sha256 ∈ ((verifyAndUpdate prev cur).deletedRecords).map Record.sha256
    exact List.mem_map_of_mem Record.sha256 hdel
  · show r.sha256 ∈ ledger ++ ((verifyAndUpdate prev cur).deletedRecords).map Record.sha256
    exact List.mem_append_right _ (List.mem_map_of_mem Record.sha256 hdel)
  · intro h hh
    show h ∈ ledger ++ ((verifyAndUpdate prev cur).deletedRecords).map Record.sha256
    exact List.mem_append_left _ hh

/-- Witness for `triageNewFiles_ledger_monotone`: staging file
`b.txt` with hash `h2` gone from the next staging scan. -/
theorem triageNewFiles_ledger_monotone_witness :
    ((⟨"b.txt", "h2", 1, 1, 1⟩ : Record) ∈ ([⟨"b.txt", "h2", 1, 1, 1⟩] : List Record)) ∧
    (∀ c ∈ ([⟨"c.txt", "h3", 2, 2, 2⟩] : List Record),
      c.relative_path ≠ Record.relative_path (⟨"b.txt", "h2", 1, 1, 1⟩ : Record)) ∧
    (∀ c ∈ ([⟨"c.txt", "h3", 2, 2, 2⟩] : List Record),
      c.sha256 ≠ Record.sha256 (⟨"b.txt", "h2", 1, 1, 1⟩ : Record)) ∧
    (Record.sha256 (⟨"b.txt", "h2", 1, 1, 1⟩ : Record) ∈
        (triageNewFiles [] ["h0"] [⟨"b.txt", "h2", 1, 1, 1⟩]
          [⟨"c.txt", "h3", 2, 2, 2⟩]).newDeletionEntries ∧
     Record.sha256 (⟨"b.txt", "h2", 1, 1, 1⟩ : Record) ∈
        (triageNewFiles [] ["h0"] [⟨"b.txt", "h2", 1, 1, 1⟩]
          [⟨"c.txt", "h3", 2, 2, 2⟩]).updatedLedger ∧
     ∀ h ∈ (["h0"] : List String),
       h ∈ (triageNewFiles [] ["h0"] [⟨"b.txt", "h2", 1, 1, 1⟩]
          [⟨"c.txt", "h3", 2, 2, 2⟩]).updatedLedger) :=
  ⟨by decide, by decide, by decide,
   triageNewFiles_ledger_monotone [] ["h0"] [⟨"b.txt", "h2", 1, 1, 1⟩]
     [⟨"c.txt", "h3", 2, 2, 2⟩] ⟨"b.txt", "h2", 1, 1, 1⟩
     (by decide) (by decide) (by decide)⟩

/-! ## C10: identical directories are rejected -/

/-- C10: if the staging directory equals the archive directory after
absolutization, `__main__` raises the `ValueError` before any scan:
`os.path.relpath` between equal directories is `"."`, which does not
start with `".."`, so the check fires. -/
theorem runMain_same_dir_rejected (p : List String) :
    runMain p (some p) = MainOutcome.preconditionError := by
  simp [runMain, relpathStartsWithPardir, relpathComponents_self]

/-! ## C6: nested directories are rejected — with a gap -/

/-- C6 as stated is false: the check compares the textual result of
`os.path.relpath` against the prefix `".."`, so an archive directory
`/z/..c` (a legal directory name that survives `abspath`) inside the
staging directory `/z` slips through: `relpath("/z/..c", "/z") = "..c"`
starts with `".."` and `relpath("/z", "/z/..c") = ".."` does too, so
neither disjunct fires and the run proceeds into the scans although one
directory is an ancestor of the other. -/
theorem runMain_nested_missed_cx :
    (["z", "..c"] : List String) = ["z"] ++ ["..c"] ∧
    runMain ["z", "..c"] (some ["z"]) = MainOutcome.proceed := by
  constructor
  · rfl
  · rfl

/-- C6 amended: when both directories are given and one is a strict
ancestor of the other, and no component of the descendant's extra path
`d` textually starts with `".."`, the run aborts with the `ValueError`
before any scan (`runMain` only reaches `doArchive`, the first scan and
the only writer of snapshot/ledger state, through `proceed`). -/
theorem runMain_nested_rejected (a d : List String) (hd : d ≠ [])
    (hcomp : ∀ c ∈ d, textStartsWithPardir c = false) :
    runMain a (some (a ++ d)) = MainOutcome.preconditionError ∧
    runMain (a ++ d) (some a) = MainOutcome.preconditionError := by
  obtain ⟨c, ds, rfl⟩ : ∃ c ds, d = c :: ds := by
    cases d with
    | nil => exact absurd rfl hd
    | cons c ds => exact ⟨c, ds, rfl⟩
  have hup : relpathStartsWithPardir a (a ++ c :: ds) = true := by
    simp only [relpathStartsWithPardir, relpathComponents_up, List.length_cons,
      List.replicate_succ]
    decide
  have hdown : relpathStartsWithPardir (a ++ c :: ds) a = false := by
    simp [relpathStartsWithPardir, relpathComponents_down]
    exact hcomp c (List.mem_cons_self c ds)
  constructor
  · simp [runMain, hup, hdown]
  · simp [runMain, hup, hdown]

/-- Witness for `runMain_nested_rejected` at archive `/a`, staging
`/a/b`. -/
theorem runMain_nested_rejected_witness :
    (["b"] : List String) ≠ [] ∧
    (∀ c ∈ (["b"] : List String), textStartsWithPardir c = false) ∧
    (runMain ["a"] (some (["a"] ++ ["b"])) = MainOutcome.preconditionError ∧
     runMain (["a"] ++ ["b"]) (some ["a"]) = MainOutcome.preconditionError) :=
  ⟨by decide, by decide, runMain_nested_rejected ["a"] ["b"] (by decide) (by decide)⟩

/-! ## C5: per-file failures during a scan -/

/-- A file listed by the walk but gone (or no longer a regular file) by
the time `os.path.isfile` runs. -/
def vanishedEntry : FsEntry := ⟨"gone.txt", false, false, false, "h1", 0, 0, 0⟩

/-- A regular file still present at the `isfile` check whose
`open(filepath, "rb")` then fails (permissions, or a race after the
check). -/
def lockedEntry : FsEntry := ⟨"locked.txt", false, true, false, "h3", 0, 0, 2⟩

/-- A readable regular file. -/
def okEntry : FsEntry := ⟨"ok.txt", false, true, true, "h2", 0, 0, 1⟩

/-- C5 fails as stated: `scanDirTree` opens each regular file with no
surrounding try/except, so a file that is still a regular file at the
`isfile` check but whose open fails makes the whole scan abort — no
records for the remaining files are returned, instead of the claimed
skip-with-warning. -/
theorem scanDirTree_unreadable_aborts_cx :
    scanDirTree [lockedEntry, okEntry] = Except.error "IOError: locked.txt" := by rfl

/-- C5 amended: only an entry that fails the `islink`/`isfile` test —
including a file that vanished between the walk and the check — is
skipped with a warning while the scan continues; when every entry that
reaches the open is readable, the scan succeeds and returns exactly the
records of the kept entries plus one warning per skipped entry.  A
still-regular file whose open fails aborts the scan
(`scanDirTree_unreadable_aborts_cx`). -/
theorem scanDirTree_skips_nonfiles (entries : List FsEntry)
    (hread : ∀ e ∈ entries, e.is_link = false → e.is_file = true → e.readable = true) :
    scanDirTree entries =
      Except.ok (((entries.filter (fun e => !(e.is_link || !e.is_file))).map FsEntry.toRecord),
        (entries.filter (fun e => e.is_link || !e.is_file)).map
          (fun e => "Skipping non-file " ++ e.relative_path)) := by
  induction entries with
  | nil => rfl
  | cons e rest ih =>
    have hrest : ∀ x ∈ rest, x.is_link = false → x.is_file = true → x.readable = true :=
      fun x hx => hread x (List.mem_cons_of_mem e hx)
    cases hl : e.is_link with
    | true => simp [scanDirTree, hl, ih hrest, List.filter_cons]
    | false =>
      cases hf : e.is_file with
      | false => simp [scanDirTree, hl, hf, ih hrest, List.filter_cons]
      | true =>
        have hr : e.readable = true := hread e (List.mem_cons_self e rest) hl hf
        simp [scanDirTree, hl, hf, hr, ih hrest, List.filter_cons, FsEntry.toRecord]

/-- Witness for `scanDirTree_skips_nonfiles`: a vanished file and a
readable file. -/
theorem scanDirTree_skips_nonfiles_witness :
    (∀ e ∈ [vanishedEntry, okEntry],
      e.is_link = false → e.is_file = true → e.readable = true) ∧
    scanDirTree [vanishedEntry, okEntry] =
      Except.ok ((([vanishedEntry, okEntry].filter
          (fun e => !(e.is_link || !e.is_file))).map FsEntry.toRecord),
        ([vanishedEntry, okEntry].filter (fun e => e.is_link || !e.is_file)).map
          (fun e => "Skipping non-file " ++ e.relative_path)) :=
  ⟨by decide, scanDirTree_skips_nonfiles [vanishedEntry, okEntry] (by decide)⟩

/-! ## C7 and C4: metadata loading -/

/-- C7: when the metadata file does not exist (first run), `doArchive`
proceeds with the empty snapshot (printing that it is creating the
file) instead of failing, whatever the parser would do. -/
theorem loadMetadata_absent_ok (parse : String → Option (List Record)) :
    loadMetadata parse MetadataFile.absent = Except.ok [] ∧
    ∀ e : LoadError, loadMetadata parse MetadataFile.absent ≠ Except.error e := by
  exact ⟨rfl, fun e h => by simp [loadMetadata] at h⟩

/-- C4: when the metadata file exists but `json.load` cannot parse its
content, loading fails with the propagated corrupt-metadata error and
in particular never yields a snapshot — empty or otherwise — in its
place. -/
theorem loadMetadata_corrupt_fails (parse : String → Option (List Record)) (content : String)
    (hbad : parse content = none) :
    loadMetadata parse (MetadataFile.present content) = Except.error LoadError.corruptMetadata ∧
    ∀ snap : List Record,
      loadMetadata parse (MetadataFile.present content) ≠ Except.ok snap := by
  refine ⟨by simp [loadMetadata, hbad], fun snap h => ?_⟩
  simp [loadMetadata, hbad] at h

/-- Witness for `loadMetadata_corrupt_fails` on unparseable content. -/
theorem loadMetadata_corrupt_fails_witness :
    ((fun _ : String => (none : Option (List Record))) "not json" = none) ∧
    (loadMetadata (fun _ => none) (MetadataFile.present "not json") =
        Except.error LoadError.corruptMetadata ∧
     ∀ snap : List Record,
       loadMetadata (fun _ => none) (MetadataFile.present "not json") ≠ Except.ok snap) :=
  ⟨rfl, loadMetadata_corrupt_fails (fun _ => none) "not json" rfl⟩
